import Mathlib

/-!
Shallow embedding of the core bytecode interpreter in `src/jvm.c`
(function `execute`, lines 45–418), together with the heap and class-view
interfaces it consumes (declared in `heap.h` / `read_class.h`, modelled from
the specification where their implementations are not part of the source).

Conventions:
* every operand-stack slot and local slot is a C `int32_t`, represented as an
  `Int` together with explicit two's-complement wrapping where the C program
  wraps;
* the operand stack `int32_t *stack` with its depth `stack_index` is
  represented as a `List Int` whose head is `stack[stack_index - 1]` (the top);
* `size_t pc` is a `Nat`; the `pc += (size_t)offset` updates wrap modulo 2^64
  exactly as C `size_t` arithmetic does;
* C behavior that is undefined (out-of-bounds access, division overflow,
  over-wide shift counts) and failed `assert`s are both mapped to the
  `fatal` outcome: the program has no defined continuation state there.
-/

namespace TeenyJVM

/-- Value of a C cast to `int8_t`: two's-complement signed value of the low 8 bits. -/
def toSigned8 (n : Nat) : Int :=
  if n % 256 < 128 then ((n % 256 : Nat) : Int) else ((n % 256 : Nat) : Int) - 256

/-- Value of a C cast to `int16_t`: two's-complement signed value of the low 16 bits. -/
def toSigned16 (n : Nat) : Int :=
  if n % 65536 < 32768 then ((n % 65536 : Nat) : Int)
  else ((n % 65536 : Nat) : Int) - 65536

/-- Two's-complement signed value of the low 32 bits, i.e. the `int32_t` whose
bit pattern is `n`. -/
def toSigned32 (n : Nat) : Int :=
  if n % 4294967296 < 2147483648 then ((n % 4294967296 : Nat) : Int)
  else ((n % 4294967296 : Nat) : Int) - 4294967296

/-- The 32-bit pattern (as a `Nat`) of the integer `x`, i.e. the value of a C
cast to `uint32_t`. -/
def toUnsigned32 (x : Int) : Nat := (x % 4294967296).toNat

/-- Reduce an integer to the `int32_t` it denotes under two's-complement
wrap-around (the behavior of the C targets this program runs on). -/
def wrap32 (x : Int) : Int := toSigned32 (toUnsigned32 x)

/-! Opcode byte values.  The enum `i_...` lives in `jvm.h`, which is not under
`src/`; the spec refers to the instructions by their standard JVM mnemonics,
so the constants below are the standard JVM opcode bytes (modelled from the
spec).  The names are the source's names. -/

abbrev i_nop : Nat := 0
abbrev i_iconst_m1 : Nat := 2
abbrev i_iconst_0 : Nat := 3
abbrev i_iconst_5 : Nat := 8
abbrev i_bipush : Nat := 16
abbrev i_sipush : Nat := 17
abbrev i_ldc : Nat := 18
abbrev i_iload : Nat := 21
abbrev i_aload : Nat := 25
abbrev i_iload_0 : Nat := 26
abbrev i_iload_3 : Nat := 29
abbrev i_aload_0 : Nat := 42
abbrev i_aload_3 : Nat := 45
abbrev i_iaload : Nat := 46
abbrev i_istore : Nat := 54
abbrev i_astore : Nat := 58
abbrev i_istore_0 : Nat := 59
abbrev i_istore_3 : Nat := 62
abbrev i_astore_0 : Nat := 75
abbrev i_astore_3 : Nat := 78
abbrev i_iastore : Nat := 79
abbrev i_dup : Nat := 89
abbrev i_iadd : Nat := 96
abbrev i_isub : Nat := 100
abbrev i_imul : Nat := 104
abbrev i_idiv : Nat := 108
abbrev i_irem : Nat := 112
abbrev i_ineg : Nat := 116
abbrev i_ishl : Nat := 120
abbrev i_ishr : Nat := 122
abbrev i_iushr : Nat := 124
abbrev i_iand : Nat := 126
abbrev i_ior : Nat := 128
abbrev i_ixor : Nat := 130
abbrev i_iinc : Nat := 132
abbrev i_ifeq : Nat := 153
abbrev i_ifne : Nat := 154
abbrev i_iflt : Nat := 155
abbrev i_ifge : Nat := 156
abbrev i_ifgt : Nat := 157
abbrev i_ifle : Nat := 158
abbrev i_if_icmpeq : Nat := 159
abbrev i_if_icmpne : Nat := 160
abbrev i_if_icmplt : Nat := 161
abbrev i_if_icmpge : Nat := 162
abbrev i_if_icmpgt : Nat := 163
abbrev i_if_icmple : Nat := 164
abbrev i_goto : Nat := 167
abbrev i_ireturn : Nat := 172
abbrev i_areturn : Nat := 176
abbrev i_return : Nat := 177
abbrev i_getstatic : Nat := 178
abbrev i_invokevirtual : Nat := 182
abbrev i_invokestatic : Nat := 184
abbrev i_newarray : Nat := 188
abbrev i_arraylength : Nat := 190

attribute [simp] i_nop i_iconst_m1 i_iconst_0 i_iconst_5 i_bipush i_sipush i_ldc
  i_iload i_aload i_iload_0 i_iload_3 i_aload_0 i_aload_3 i_iaload i_istore
  i_astore i_istore_0 i_istore_3 i_astore_0 i_astore_3 i_iastore i_dup i_iadd
  i_isub i_imul i_idiv i_irem i_ineg i_ishl i_ishr i_iushr i_iand i_ior i_ixor
  i_iinc i_ifeq i_ifne i_iflt i_ifge i_ifgt i_ifle i_if_icmpeq i_if_icmpne
  i_if_icmplt i_if_icmpge i_if_icmpgt i_if_icmple i_goto i_ireturn i_areturn
  i_return i_getstatic i_invokevirtual i_invokestatic i_newarray i_arraylength

/-- A method's code attribute (`method_t` / `code_t` from `read_class.h`):
the `u1` code buffer (bytes), `max_stack`, `max_locals`, and the parameter
count derived from the descriptor.  `code_length` is `code.length`.
`nparams` is the result of `get_number_of_parameters`; modelled from the spec
(the descriptor parser is outside the core): a non-negative integer. -/
structure Method where
  code : List Nat
  max_stack : Nat
  max_locals : Nat
  nparams : Nat

/-- Modelled from the spec: the read-only class view (`class_file_t`,
implemented by the class-file parser, which is outside the core).
`constant_pool` exposes the raw 32-bit integer payloads of `ldc` entries;
`find_method_from_index` resolves a constant-pool method reference (absent
resolution has no defined behavior in the interpreter and is mapped to
`none`). -/
structure ClassFile where
  constant_pool : List Int
  find_method_from_index : Int → Option Method

/-- A frame: program counter, operand stack (head = top), local variables. -/
structure Frame where
  pc : Nat
  stack : List Int
  locals : List Int
deriving Repr, DecidableEq

/-- Modelled from the spec: the process-wide heap (`heap.c` is not under
`src/`) is an append-only registry of integer arrays (§4.1 / §2). -/
abbrev Heap := List (List Int)

/-- Modelled from the spec: `heap_add` takes ownership of the array and
returns a stable integer handle — the append position (§4.1). -/
def heap_add (heap : Heap) (arr : List Int) : Heap × Int :=
  (heap ++ [arr], (heap.length : Int))

/-- Modelled from the spec: `heap_get` returns the previously allocated
array for a reference produced by this heap; for any other reference the
behavior is unspecified (`none`). -/
def heap_get (heap : Heap) (r : Int) : Option (List Int) :=
  if 0 ≤ r ∧ r.toNat < heap.length then some (heap.getD r.toNat []) else none

/-- `u1` operand fetch `code[i]`: bytes are unsigned 8-bit values. -/
def u8At (code : List Nat) (i : Nat) : Nat := code.getD i 0 % 256

/-- The 16-bit big-endian operand decode used for branch offsets and the
`invokestatic` pool index (lines 70, 229, …):
`(int16_t)(code[pc + 1] << 8) | code[pc + 2]`, where the cast binds to the
shifted high byte only and the `|` is evaluated on 32-bit `int`. -/
def s16At (code : List Nat) (pc : Nat) : Int :=
  toSigned32 (toUnsigned32 (toSigned16 (u8At code (pc + 1) <<< 8)) ||| u8At code (pc + 2))

/-- The `sipush` operand (line 189):
`int16_t b_concat = (code[pc + 1] << 8) | code[pc + 2]`. -/
def sipushVal (code : List Nat) (pc : Nat) : Int :=
  toSigned16 ((u8At code (pc + 1) <<< 8) ||| u8At code (pc + 2))

/-- `pc += (size_t)offset`: the signed offset is converted to `size_t` and
added with `size_t` (modulo 2^64) arithmetic. -/
def jumpPc (pc : Nat) (off : Int) : Nat :=
  (((pc : Int) + off) % 18446744073709551616).toNat

/-- `stack[stack_index] = v; stack_index++`.  The operand stack buffer holds
`max_stack` slots (`calloc` at line 53); a store at `stack_index ≥ max_stack`
is out of bounds — undefined behavior, hence no defined result. -/
def push (max_stack : Nat) (stack : List Int) (v : Int) : Option (List Int) :=
  if stack.length < max_stack then some (v :: stack) else none

/-- Lines 73–76: `local_temp = calloc(m->code.max_locals, ...)`, then
`for (i = 0; i < parameters; i++) local_temp[parameters - i - 1] = stack[stack_index - i - 1]`.
With the stack listed top-first, `stack[stack_index - 1 - i]` is `stack.getD i 0`. -/
def calleeLocals (parameters max_locals : Nat) (stack : List Int) : List Int :=
  (List.range parameters).foldl
    (fun acc i => acc.set (parameters - i - 1) (stack.getD i 0))
    (List.replicate max_locals 0)

/-- The signed `int32_t` lower bound: stores below it cannot arise. -/
def int32Min : Int := -2147483648

/-- Outcome of one iteration of the dispatch loop. -/
inductive StepRes where
  | running (heap : Heap) (fr : Frame)
  | retVoid (heap : Heap)
  | retVal (heap : Heap) (v : Int)
  | fatal
  | timeout
deriving Repr, DecidableEq

/-- Result of `execute`: an `optional_value_t` (plus the heap it may have
extended), or a fatal assertion failure / undefined behavior, or fuel
exhaustion of the model. -/
inductive ExecResult where
  | ok (heap : Heap) (ret : Option Int)
  | fatal
  | timeout
deriving Repr, DecidableEq

/-- One iteration of the dispatch loop of `execute` (`src/jvm.c`, lines
54–412), factored over the recursive call: `execCallee` stands for the
recursive `execute(m, local_temp, class, heap)` of line 78.  The branches
appear in source order.  `fatal` marks both failed `assert`s and C undefined
behavior (out-of-bounds stack/local/array access, division overflow,
over-wide shift counts), where the C program has no defined next state. -/
def step (cls : ClassFile) (m : Method)
    (execCallee : Method → List Int → Heap → ExecResult)
    (heap : Heap) (fr : Frame) : StepRes :=
  let code := m.code
  let pc := fr.pc
  let stack := fr.stack
  let locals := fr.locals
  let instruction := u8At code pc
  -- line 57: i_return
  if instruction = i_return then
    .retVoid heap
  -- line 61: i_ireturn
  else if instruction = i_ireturn then
    match stack with
    | v :: _ => .retVal heap v
    | [] => .fatal
  -- line 69: i_invokestatic
  else if instruction = i_invokestatic then
    let pool_index := s16At code pc
    match cls.find_method_from_index pool_index with
    | none => .fatal
    | some mm =>
      let parameters := mm.nparams
      -- the copy loop reads stack[stack_index - i - 1] and writes
      -- local_temp[parameters - i - 1]; both are in bounds only if
      -- parameters ≤ stack_index and parameters ≤ max_locals
      if parameters ≤ stack.length ∧ parameters ≤ mm.max_locals then
        let local_temp := calleeLocals parameters mm.max_locals stack
        match execCallee mm local_temp heap with
        | .ok h2 none => .running h2 ⟨pc + 3, stack.drop parameters, locals⟩
        | .ok h2 (some v) =>
          match push m.max_stack (stack.drop parameters) v with
          | some st => .running h2 ⟨pc + 3, st, locals⟩
          | none => .fatal
        | .fatal => .fatal
        | .timeout => .timeout
      else .fatal
  -- line 86: i_bipush
  else if instruction = i_bipush then
    match push m.max_stack stack (toSigned8 (u8At code (pc + 1))) with
    | some st => .running heap ⟨pc + 2, st, locals⟩
    | none => .fatal
  -- line 91: i_iadd
  else if instruction = i_iadd then
    match stack with
    | b :: a :: rest => .running heap ⟨pc + 1, wrap32 (a + b) :: rest, locals⟩
    | _ => .fatal
  -- line 98: i_isub
  else if instruction = i_isub then
    match stack with
    | b :: a :: rest => .running heap ⟨pc + 1, wrap32 (a - b) :: rest, locals⟩
    | _ => .fatal
  -- line 105: i_imul
  else if instruction = i_imul then
    match stack with
    | b :: a :: rest => .running heap ⟨pc + 1, wrap32 (a * b) :: rest, locals⟩
    | _ => .fatal
  -- line 112: i_idiv; assert(divisor != 0); INT_MIN / -1 overflows (C UB)
  else if instruction = i_idiv then
    match stack with
    | b :: a :: rest =>
      if b ≠ 0 ∧ ¬(a = int32Min ∧ b = -1) then
        .running heap ⟨pc + 1, Int.tdiv a b :: rest, locals⟩
      else .fatal
    | _ => .fatal
  -- line 120: i_irem; assert(divisor != 0); INT_MIN % -1 is likewise C UB
  else if instruction = i_irem then
    match stack with
    | b :: a :: rest =>
      if b ≠ 0 ∧ ¬(a = int32Min ∧ b = -1) then
        .running heap ⟨pc + 1, Int.tmod a b :: rest, locals⟩
      else .fatal
    | _ => .fatal
  -- line 128: i_ineg (stack[stack_index - 1] *= -1, wrapping on the target)
  else if instruction = i_ineg then
    match stack with
    | a :: rest => .running heap ⟨pc + 1, wrap32 (a * -1) :: rest, locals⟩
    | [] => .fatal
  -- line 132: i_ishl; C shift counts outside [0, 31] are undefined behavior
  -- (the source does not mask the count); the shifted value wraps
  else if instruction = i_ishl then
    match stack with
    | b :: a :: rest =>
      if 0 ≤ b ∧ b < 32 then
        .running heap ⟨pc + 1, wrap32 (a * 2 ^ b.toNat) :: rest, locals⟩
      else .fatal
    | _ => .fatal
  -- line 139: i_ishr; arithmetic (sign-preserving) shift of the signed value,
  -- i.e. floor division by 2^count; counts outside [0, 31] are C UB
  else if instruction = i_ishr then
    match stack with
    | b :: a :: rest =>
      if 0 ≤ b ∧ b < 32 then
        .running heap ⟨pc + 1, (a / 2 ^ b.toNat) :: rest, locals⟩
      else .fatal
    | _ => .fatal
  -- line 146: i_iushr; logical shift of (uint32_t)a; counts outside [0, 31] are C UB
  else if instruction = i_iushr then
    match stack with
    | b :: a :: rest =>
      if 0 ≤ b ∧ b < 32 then
        .running heap ⟨pc + 1, toSigned32 (toUnsigned32 a >>> b.toNat) :: rest, locals⟩
      else .fatal
    | _ => .fatal
  -- line 153: i_iand
  else if instruction = i_iand then
    match stack with
    | b :: a :: rest =>
      .running heap ⟨pc + 1, toSigned32 (toUnsigned32 a &&& toUnsigned32 b) :: rest, locals⟩
    | _ => .fatal
  -- line 160: i_ior
  else if instruction = i_ior then
    match stack with
    | b :: a :: rest =>
      .running heap ⟨pc + 1, toSigned32 (toUnsigned32 a ||| toUnsigned32 b) :: rest, locals⟩
    | _ => .fatal
  -- line 167: i_ixor
  else if instruction = i_ixor then
    match stack with
    | b :: a :: rest =>
      .running heap ⟨pc + 1, toSigned32 (toUnsigned32 a ^^^ toUnsigned32 b) :: rest, locals⟩
    | _ => .fatal
  -- line 174: i_getstatic (no-op of width 3)
  else if instruction = i_getstatic then
    .running heap ⟨pc + 3, stack, locals⟩
  -- line 177: i_invokevirtual: assert(stack_index > 0), pop and print
  -- (the printf is host I/O, outside the machine state)
  else if instruction = i_invokevirtual then
    match stack with
    | _ :: rest => .running heap ⟨pc + 3, rest, locals⟩
    | [] => .fatal
  -- line 183: iconst_m1 .. iconst_5: push instruction - i_iconst_0
  else if i_iconst_m1 ≤ instruction ∧ instruction ≤ i_iconst_5 then
    match push m.max_stack stack ((instruction : Int) - (i_iconst_0 : Nat)) with
    | some st => .running heap ⟨pc + 1, st, locals⟩
    | none => .fatal
  -- line 188: i_sipush
  else if instruction = i_sipush then
    match push m.max_stack stack (sipushVal code pc) with
    | some st => .running heap ⟨pc + 3, st, locals⟩
    | none => .fatal
  -- line 194: i_iload; locals[code[pc + 1]] must be in bounds
  else if instruction = i_iload then
    if u8At code (pc + 1) < locals.length then
      match push m.max_stack stack (locals.getD (u8At code (pc + 1)) 0) with
      | some st => .running heap ⟨pc + 2, st, locals⟩
      | none => .fatal
    else .fatal
  -- line 199: i_istore
  else if instruction = i_istore then
    match stack with
    | v :: rest =>
      if u8At code (pc + 1) < locals.length then
        .running heap ⟨pc + 2, rest, locals.set (u8At code (pc + 1)) v⟩
      else .fatal
    | [] => .fatal
  -- line 204: i_iinc: locals[code[pc + 1]] += (int8_t)code[pc + 2]
  else if instruction = i_iinc then
    if u8At code (pc + 1) < locals.length then
      .running heap ⟨pc + 3, stack,
        locals.set (u8At code (pc + 1))
          (wrap32 (locals.getD (u8At code (pc + 1)) 0 + toSigned8 (u8At code (pc + 2))))⟩
    else .fatal
  -- line 208: iload_0 .. iload_3
  else if i_iload_0 ≤ instruction ∧ instruction ≤ i_iload_3 then
    if instruction - i_iload_0 < locals.length then
      match push m.max_stack stack (locals.getD (instruction - i_iload_0) 0) with
      | some st => .running heap ⟨pc + 1, st, locals⟩
      | none => .fatal
    else .fatal
  -- line 213: istore_0 .. istore_3
  else if i_istore_0 ≤ instruction ∧ instruction ≤ i_istore_3 then
    match stack with
    | v :: rest =>
      if instruction - i_istore_0 < locals.length then
        .running heap ⟨pc + 1, rest, locals.set (instruction - i_istore_0) v⟩
      else .fatal
    | [] => .fatal
  -- line 219: i_ldc: constant_pool[(int32_t)code[pc + 1] - 1]
  else if instruction = i_ldc then
    if 1 ≤ u8At code (pc + 1) ∧ u8At code (pc + 1) - 1 < cls.constant_pool.length then
      match push m.max_stack stack (cls.constant_pool.getD (u8At code (pc + 1) - 1) 0) with
      | some st => .running heap ⟨pc + 2, st, locals⟩
      | none => .fatal
    else .fatal
  -- line 226: i_ifeq
  else if instruction = i_ifeq then
    match stack with
    | a :: rest =>
      .running heap ⟨if a = 0 then jumpPc pc (s16At code pc) else pc + 3, rest, locals⟩
    | [] => .fatal
  -- line 236: i_ifne
  else if instruction = i_ifne then
    match stack with
    | a :: rest =>
      .running heap ⟨if a ≠ 0 then jumpPc pc (s16At code pc) else pc + 3, rest, locals⟩
    | [] => .fatal
  -- line 246: i_iflt
  else if instruction = i_iflt then
    match stack with
    | a :: rest =>
      .running heap ⟨if a < 0 then jumpPc pc (s16At code pc) else pc + 3, rest, locals⟩
    | [] => .fatal
  -- line 256: i_ifge
  else if instruction = i_ifge then
    match stack with
    | a :: rest =>
      .running heap ⟨if 0 ≤ a then jumpPc pc (s16At code pc) else pc + 3, rest, locals⟩
    | [] => .fatal
  -- line 266: i_ifgt
  else if instruction = i_ifgt then
    match stack with
    | a :: rest =>
      .running heap ⟨if 0 < a then jumpPc pc (s16At code pc) else pc + 3, rest, locals⟩
    | [] => .fatal
  -- line 276: i_ifle
  else if instruction = i_ifle then
    match stack with
    | a :: rest =>
      .running heap ⟨if a ≤ 0 then jumpPc pc (s16At code pc) else pc + 3, rest, locals⟩
    | [] => .fatal
  -- line 286: i_if_icmpeq (stack[stack_index-2] = a, stack[stack_index-1] = b)
  else if instruction = i_if_icmpeq then
    match stack with
    | b :: a :: rest =>
      .running heap ⟨if a = b then jumpPc pc (s16At code pc) else pc + 3, rest, locals⟩
    | _ => .fatal
  -- line 296: i_if_icmpne
  else if instruction = i_if_icmpne then
    match stack with
    | b :: a :: rest =>
      .running heap ⟨if a ≠ b then jumpPc pc (s16At code pc) else pc + 3, rest, locals⟩
    | _ => .fatal
  -- line 306: i_if_icmplt
  else if instruction = i_if_icmplt then
    match stack with
    | b :: a :: rest =>
      .running heap ⟨if a < b then jumpPc pc (s16At code pc) else pc + 3, rest, locals⟩
    | _ => .fatal
  -- line 316: i_if_icmpge
  else if instruction = i_if_icmpge then
    match stack with
    | b :: a :: rest =>
      .running heap ⟨if b ≤ a then jumpPc pc (s16At code pc) else pc + 3, rest, locals⟩
    | _ => .fatal
  -- line 326: i_if_icmpgt
  else if instruction = i_if_icmpgt then
    match stack with
    | b :: a :: rest =>
      .running heap ⟨if b < a then jumpPc pc (s16At code pc) else pc + 3, rest, locals⟩
    | _ => .fatal
  -- line 336: i_if_icmple
  else if instruction = i_if_icmple then
    match stack with
    | b :: a :: rest =>
      .running heap ⟨if a ≤ b then jumpPc pc (s16At code pc) else pc + 3, rest, locals⟩
    | _ => .fatal
  -- line 346: i_goto
  else if instruction = i_goto then
    .running heap ⟨jumpPc pc (s16At code pc), stack, locals⟩
  -- line 350: i_nop
  else if instruction = i_nop then
    .running heap ⟨pc + 1, stack, locals⟩
  -- line 353: i_dup: stack[stack_index] = stack[stack_index - 1]
  else if instruction = i_dup then
    match stack with
    | a :: _ =>
      match push m.max_stack stack a with
      | some st => .running heap ⟨pc + 1, st, locals⟩
      | none => .fatal
    | [] => .fatal
  -- line 358: i_newarray: calloc(N + 1) zeroed, arr[0] = N, push heap_add ref.
  -- `stack[stack_index - 1] + 1` is computed in int32_t: at N = 2^31 - 1 the
  -- addition overflows (undefined behavior; in practice the wrapped size makes
  -- calloc return NULL and the arr[0] store crash), and a negative N makes the
  -- calloc size wrap or the zero-size arr[0] store go out of bounds (UB too)
  else if instruction = i_newarray then
    match stack with
    | n :: rest =>
      if 0 ≤ n ∧ n < 2147483647 then
        .running (heap_add heap ((List.replicate (n.toNat + 1) 0).set 0 n)).1
          ⟨pc + 2, (heap_add heap ((List.replicate (n.toNat + 1) 0).set 0 n)).2 :: rest, locals⟩
      else .fatal
    | [] => .fatal
  -- line 367: i_arraylength: push arr[0]
  else if instruction = i_arraylength then
    match stack with
    | r :: rest =>
      match heap_get heap r with
      | some arr => .running heap ⟨pc + 1, arr.getD 0 0 :: rest, locals⟩
      | none => .fatal
    | [] => .fatal
  -- line 372: i_areturn
  else if instruction = i_areturn then
    match stack with
    | v :: _ => .retVal heap v
    | [] => .fatal
  -- line 380: i_iastore: arr[stack[top-2] + 1] = stack[top-1], through the
  -- heap-owned array of reference stack[top-3]
  else if instruction = i_iastore then
    match stack with
    | v :: i :: r :: rest =>
      match heap_get heap r with
      | some arr =>
        if 0 ≤ i + 1 ∧ (i + 1).toNat < arr.length then
          .running (heap.set r.toNat (arr.set (i + 1).toNat v)) ⟨pc + 1, rest, locals⟩
        else .fatal
      | none => .fatal
    | _ => .fatal
  -- line 386: i_iaload: push arr[stack[top-1] + 1]
  else if instruction = i_iaload then
    match stack with
    | i :: r :: rest =>
      match heap_get heap r with
      | some arr =>
        if 0 ≤ i + 1 ∧ (i + 1).toNat < arr.length then
          .running heap ⟨pc + 1, arr.getD (i + 1).toNat 0 :: rest, locals⟩
        else .fatal
      | none => .fatal
    | _ => .fatal
  -- line 392: i_aload
  else if instruction = i_aload then
    if u8At code (pc + 1) < locals.length then
      match push m.max_stack stack (locals.getD (u8At code (pc + 1)) 0) with
      | some st => .running heap ⟨pc + 2, st, locals⟩
      | none => .fatal
    else .fatal
  -- line 397: i_astore
  else if instruction = i_astore then
    match stack with
    | v :: rest =>
      if u8At code (pc + 1) < locals.length then
        .running heap ⟨pc + 2, rest, locals.set (u8At code (pc + 1)) v⟩
      else .fatal
    | [] => .fatal
  -- line 402: aload_0 .. aload_3
  else if i_aload_0 ≤ instruction ∧ instruction ≤ i_aload_3 then
    if instruction - i_aload_0 < locals.length then
      match push m.max_stack stack (locals.getD (instruction - i_aload_0) 0) with
      | some st => .running heap ⟨pc + 1, st, locals⟩
      | none => .fatal
    else .fatal
  -- line 407: astore_0 .. astore_3
  else if i_astore_0 ≤ instruction ∧ instruction ≤ i_astore_3 then
    match stack with
    | v :: rest =>
      if instruction - i_astore_0 < locals.length then
        .running heap ⟨pc + 1, rest, locals.set (instruction - i_astore_0) v⟩
      else .fatal
    | [] => .fatal
  -- no final else in the source: an unrecognized opcode matches no branch,
  -- leaves every variable (including pc) unchanged, and re-enters the loop
  else
    .running heap fr

/-- The dispatch loop and frame setup of `execute` (lines 49–418), with an
explicit fuel bound on the number of executed instructions plus recursive
calls: `timeout` means the bound was exhausted (the C program would still be
running).  A frame starts at `pc = 0` with an empty, zeroed operand stack
(lines 49–53); leaving the loop because `pc ≥ code_length` returns void
(lines 412–417). -/
def loop : Nat → ClassFile → Method → Heap → Frame → ExecResult
  | 0, _, _, _, _ => .timeout
  | fuel + 1, cls, m, heap, fr =>
    if fr.pc < m.code.length then
      match step cls m (fun mm l h => loop fuel cls mm h ⟨0, [], l⟩) heap fr with
      | .running h2 fr2 => loop fuel cls m h2 fr2
      | .retVoid h2 => .ok h2 none
      | .retVal h2 v => .ok h2 (some v)
      | .fatal => .fatal
      | .timeout => .timeout
    else .ok heap none

/-- `execute(method, locals, class, heap)` (line 45): run the method's
instructions from `pc = 0` with the caller-initialized locals. -/
def execute (fuel : Nat) (cls : ClassFile) (m : Method) (locals : List Int)
    (heap : Heap) : ExecResult :=
  loop fuel cls m heap ⟨0, [], locals⟩

/-! ### Arithmetic helper lemmas -/

theorem toSigned16_eq_of_lt {n : Nat} (h : n < 32768) : toSigned16 n = (n : Int) := by
  unfold toSigned16; split <;> omega

theorem toSigned16_eq_of_ge {n : Nat} (h1 : 32768 ≤ n) (h2 : n < 65536) :
    toSigned16 n = (n : Int) - 65536 := by
  unfold toSigned16; split <;> omega

theorem toSigned32_eq_of_lt {n : Nat} (h : n < 2147483648) : toSigned32 n = (n : Int) := by
  unfold toSigned32; split <;> omega

theorem toSigned32_eq_of_ge {n : Nat} (h1 : 2147483648 ≤ n) (h2 : n < 4294967296) :
    toSigned32 n = (n : Int) - 4294967296 := by
  unfold toSigned32; split <;> omega

theorem toUnsigned32_ofNat {k : Nat} (h : k < 4294967296) : toUnsigned32 (k : Int) = k := by
  unfold toUnsigned32; omega

theorem toUnsigned32_neg {x : Int} (h1 : -4294967296 ≤ x) (h2 : x < 0) :
    toUnsigned32 x = (x + 4294967296).toNat := by
  unfold toUnsigned32; omega

theorem toUnsigned32_toSigned32 {n : Nat} (h : n < 4294967296) :
    toUnsigned32 (toSigned32 n) = n := by
  unfold toSigned32 toUnsigned32; split <;> omega

theorem u8At_lt (code : List Nat) (i : Nat) : u8At code i < 256 :=
  Nat.mod_lt _ (by omega)

/-- OR-ing a byte into a multiple of 256 is addition. -/
theorem or256 {lo : Nat} (h : lo < 256) (a : Nat) : (256 * a) ||| lo = 256 * a + lo := by
  have h8 : (2 : Nat) ^ 8 = 256 := by norm_num
  have := Nat.mul_add_lt_is_or (i := 8) (b := lo) (by omega) a
  norm_num at this
  omega

/-- The branch-offset decode `(int16_t)(code[pc+1] << 8) | code[pc+2]` computed
by the source equals the spec's decode: assemble the big-endian 16-bit value
`(code[pc+1] << 8) | code[pc+2]`, then sign-extend. -/
theorem s16At_eq_spec (code : List Nat) (pc : Nat) :
    s16At code pc =
      toSigned16 ((u8At code (pc + 1)) <<< 8 ||| u8At code (pc + 2)) := by
  have hhi : u8At code (pc + 1) < 256 := u8At_lt code (pc + 1)
  have hlo : u8At code (pc + 2) < 256 := u8At_lt code (pc + 2)
  set hi := u8At code (pc + 1) with hhidef
  set lo := u8At code (pc + 2) with hlodef
  have hsl : hi <<< 8 = 256 * hi := by rw [Nat.shiftLeft_eq]; ring
  unfold s16At
  rw [← hhidef, ← hlodef, hsl, or256 hlo hi]
  rcases Nat.lt_or_ge hi 128 with h1 | h1
  · rw [toSigned16_eq_of_lt (by omega), toUnsigned32_ofNat (by omega), or256 hlo hi,
      toSigned32_eq_of_lt (by omega), toSigned16_eq_of_lt (by omega)]
  · rw [toSigned16_eq_of_ge (by omega) (by omega), toSigned16_eq_of_ge (by omega) (by omega),
      toUnsigned32_neg (by omega) (by omega)]
    have he : ((256 * hi : Nat) : Int) - 65536 + 4294967296 = ((256 * (hi + 16776960) : Nat) : Int) := by
      push_cast; ring
    rw [he, Int.toNat_ofNat, or256 hlo (hi + 16776960),
      toSigned32_eq_of_ge (by omega) (by omega)]
    push_cast; ring

/-! ### Stack and callee-locals lemmas -/

theorem push_eq_some {max : Nat} {stack : List Int} {v : Int} {st : List Int}
    (h : push max stack v = some st) : st = v :: stack ∧ stack.length < max := by
  unfold push at h; split at h <;> simp_all

theorem push_of_lt {max : Nat} {stack : List Int} (v : Int) (h : stack.length < max) :
    push max stack v = some (v :: stack) := by
  unfold push; rw [if_pos h]

theorem calleeLocals_fold_length (P maxL : Nat) (stack : List Int) (n : Nat) :
    ((List.range n).foldl (fun acc i => acc.set (P - i - 1) (stack.getD i 0))
      (List.replicate maxL 0)).length = maxL := by
  induction n with
  | zero => simp
  | succ k ih =>
    rw [List.range_succ, List.foldl_append]
    simp only [List.foldl_cons, List.foldl_nil, List.length_set]
    exact ih

theorem calleeLocals_fold_getD (P maxL : Nat) (stack : List Int) (hPL : P ≤ maxL) :
    ∀ n, n ≤ P → ∀ j,
      ((List.range n).foldl (fun acc i => acc.set (P - i - 1) (stack.getD i 0))
        (List.replicate maxL 0)).getD j 0 =
      if P - n ≤ j ∧ j < P then stack.getD (P - 1 - j) 0 else 0 := by
  intro n
  induction n with
  | zero =>
    intro _ j
    rw [if_neg (by omega)]
    simp only [List.range_zero, List.foldl_nil, List.getD_eq_getElem?_getD,
      List.getElem?_replicate]
    split <;> rfl
  | succ k ih =>
    intro hk j
    rw [List.range_succ, List.foldl_append]
    simp only [List.foldl_cons, List.foldl_nil]
    rw [List.getD_eq_getElem?_getD]
    rcases Nat.decEq j (P - k - 1) with hj | hj
    · rw [List.getElem?_set_ne (by omega)]
      rw [← List.getD_eq_getElem?_getD, ih (by omega) j]
      have hiff : (P - k ≤ j ∧ j < P) ↔ (P - (k + 1) ≤ j ∧ j < P) := by omega
      rw [if_congr hiff rfl rfl]
    · subst hj
      rw [List.getElem?_set_self (by rw [calleeLocals_fold_length]; omega)]
      rw [if_pos (by omega)]
      have : P - 1 - (P - k - 1) = k := by omega
      rw [this]
      rfl

theorem calleeLocals_length (P maxL : Nat) (stack : List Int) :
    (calleeLocals P maxL stack).length = maxL :=
  calleeLocals_fold_length P maxL stack P

theorem calleeLocals_getD (P maxL : Nat) (stack : List Int) (hPL : P ≤ maxL) (j : Nat) :
    (calleeLocals P maxL stack).getD j 0 =
      if j < P then stack.getD (P - 1 - j) 0 else 0 := by
  have h := calleeLocals_fold_getD P maxL stack hPL P (Nat.le_refl P) j
  unfold calleeLocals
  rw [h]
  have hiff : (P - P ≤ j ∧ j < P) ↔ j < P := by omega
  rw [if_congr hiff rfl rfl]

/-! ### T-division sign lemmas -/

theorem neg_tmod (a b : Int) : Int.tmod (-a) b = - Int.tmod a b := by
  rw [Int.tmod_def, Int.tmod_def, Int.neg_tdiv]; ring

theorem tmod_nonpos_of_nonpos {a : Int} (b : Int) (h : a ≤ 0) : Int.tmod a b ≤ 0 := by
  have h2 := Int.tmod_nonneg b (a := -a) (by omega)
  have h3 := neg_tmod a b
  omega

theorem natAbs_tmod_lt (a : Int) {b : Int} (hb : b ≠ 0) :
    (Int.tmod a b).natAbs < b.natAbs := by
  have key : ∀ (x : Int) {y : Int}, 0 < y → (Int.tmod x y).natAbs < y.natAbs := by
    intro x y hy
    rcases le_or_lt 0 x with hx | hx
    · have h1 := Int.tmod_nonneg y hx
      have h2 := Int.tmod_lt_of_pos x hy
      omega
    · have h1 := tmod_nonpos_of_nonpos y (le_of_lt hx)
      have h2 := Int.tmod_lt_of_pos (-x) hy
      have h3 := Int.tmod_nonneg y (a := -x) (by omega)
      have h4 := neg_tmod x y
      omega
  rcases lt_or_gt_of_ne hb with hbneg | hbpos
  · have := key a (y := -b) (by omega)
    rw [Int.tmod_neg] at this
    omega
  · exact key a hbpos

/-! ### Concrete objects used by the witness checks -/

/-- A minimal class view for the concrete check programs: empty pool,
no resolvable methods. -/
def sampleClass : ClassFile := ⟨[], fun _ => none⟩

/-- A callee executor that is never consulted (for opcodes that do not call). -/
def noCallee : Method → List Int → Heap → ExecResult := fun _ _ _ => .timeout

/-- A small method around the given code bytes. -/
def sampleMethod (bytes : List Nat) : Method := ⟨bytes, 8, 4, 0⟩

/-! ### Claim theorems -/

/-- C10: if the program counter reaches or exceeds `code_length`, the dispatch
loop is not entered again: `execute` falls out of the loop and returns the
void optional (`has_value = false`), lines 54 and 412–417. -/
theorem fall_off_end_returns_void (fuel : Nat) (cls : ClassFile) (m : Method)
    (heap : Heap) (fr : Frame) (h : m.code.length ≤ fr.pc) :
    loop (fuel + 1) cls m heap fr = .ok heap none := by
  rw [loop, if_neg (by omega)]

/-- C10 witness: a method whose code is empty immediately returns void. -/
theorem fall_off_end_returns_void_witness :
    loop 1 sampleClass (sampleMethod []) [] ⟨0, [], []⟩ = .ok [] none :=
  fall_off_end_returns_void 0 sampleClass (sampleMethod []) [] ⟨0, [], []⟩ (by decide)

/-- A method whose single code byte 0xCB is not one of the supported opcodes. -/
def badOpcodeMethod : Method := ⟨[203], 8, 4, 0⟩

theorem step_bad_opcode (ex : Method → List Int → Heap → ExecResult) :
    step sampleClass badOpcodeMethod ex [] ⟨0, [], []⟩ = .running [] ⟨0, [], []⟩ := rfl

/-- C9: contrary to the claim, an unsupported opcode byte is NOT fatal and
produces no diagnostic: the dispatch chain has no final else (lines 54–412),
so no branch fires, every variable including `pc` is left unchanged, and the
loop re-fetches the same byte forever.  Concretely, on code `[0xCB]` the
single step leaves the state unchanged and `execute` exhausts any fuel bound
(i.e. the C program diverges silently). -/
theorem unknown_opcode_diverges :
    step sampleClass badOpcodeMethod noCallee [] ⟨0, [], []⟩ = .running [] ⟨0, [], []⟩ ∧
    ∀ fuel, execute fuel sampleClass badOpcodeMethod [] [] = .timeout := by
  refine ⟨rfl, fun fuel => ?_⟩
  show loop fuel sampleClass badOpcodeMethod [] ⟨0, [], []⟩ = .timeout
  induction fuel with
  | zero => rfl
  | succ k ih =>
    rw [loop, if_pos (by decide), step_bad_opcode]
    exact ih

/-- C2: contrary to the claim, the source does not mask the shift count
(line 134: `stack[stack_index - 2] << stack[stack_index - 1]` with no `& 0x1F`).
At a = 1, b = 33 this evaluates `1 << 33` on `int32_t`, undefined behavior in C
(count ≥ width), so there is no defined state pushing the masked result
`1 << (33 & 0x1F)` = 2.  The spec's design notes themselves direct
implementations to mask and note the source relies on host behavior. -/
theorem ishl_count_unmasked :
    step sampleClass (sampleMethod [120]) noCallee [] ⟨0, [33, 1], []⟩ = .fatal ∧
    step sampleClass (sampleMethod [120]) noCallee [] ⟨0, [33, 1], []⟩ ≠
      .running [] ⟨1, [2], []⟩ := by
  exact ⟨rfl, by decide⟩

/-- C5 as stated is false at a = -2^31, b = -1: line 115 evaluates
`(-2147483648) / (-1)` on `int32_t`, whose mathematical quotient 2^31
overflows — undefined behavior in C (a trap on mainstream targets) — so the
interpreter does not push a toward-zero quotient there, contrary to the
claim's "for all 32-bit a and all nonzero 32-bit b". -/
theorem idiv_min_counterexample :
    step sampleClass (sampleMethod [108]) noCallee [] ⟨0, [-1, -2147483648], []⟩ = .fatal ∧
    step sampleClass (sampleMethod [108]) noCallee [] ⟨0, [-1, -2147483648], []⟩ ≠
      .running [] ⟨1, [Int.tdiv (-2147483648) (-1)], []⟩ := by
  exact ⟨rfl, by decide⟩

/-- C5 (amended): for nonzero b, excluding only (a, b) = (-2^31, -1) where the
C division overflows, `idiv` pops b then a and pushes the toward-zero quotient
and `irem` pops b then a and pushes the C remainder, which satisfies the
division identity, is smaller than |b| in magnitude, and carries the sign of
the dividend a when nonzero. -/
theorem idiv_irem_semantics
    (cls : ClassFile) (m : Method) (ex : Method → List Int → Heap → ExecResult)
    (heap : Heap) (pc : Nat) (a b : Int) (rest locals : List Int)
    (hb : b ≠ 0) (hmin : ¬(a = int32Min ∧ b = -1)) :
    (u8At m.code pc = i_idiv →
      step cls m ex heap ⟨pc, b :: a :: rest, locals⟩ =
        .running heap ⟨pc + 1, Int.tdiv a b :: rest, locals⟩) ∧
    (u8At m.code pc = i_irem →
      step cls m ex heap ⟨pc, b :: a :: rest, locals⟩ =
        .running heap ⟨pc + 1, Int.tmod a b :: rest, locals⟩) ∧
    (Int.tdiv a b).natAbs = a.natAbs / b.natAbs ∧
    b * Int.tdiv a b + Int.tmod a b = a ∧
    (Int.tmod a b).natAbs < b.natAbs ∧
    (0 ≤ a → 0 ≤ Int.tmod a b) ∧
    (a ≤ 0 → Int.tmod a b ≤ 0) := by
  refine ⟨fun hcode => ?_, fun hcode => ?_, Int.natAbs_tdiv a b, Int.tdiv_add_tmod a b,
    natAbs_tmod_lt a hb, fun ha => Int.tmod_nonneg b ha, fun ha => tmod_nonpos_of_nonpos b ha⟩
  · simp [step, hcode, hb, hmin]
  · simp [step, hcode, hb, hmin]

/-- C5 witness: idiv and irem on (-7, 2) at concrete single-instruction
methods. -/
theorem idiv_irem_semantics_witness :
    step sampleClass (sampleMethod [108]) noCallee [] ⟨0, [2, -7], []⟩ =
      .running [] ⟨0 + 1, Int.tdiv (-7) 2 :: [], []⟩ ∧
    step sampleClass (sampleMethod [112]) noCallee [] ⟨0, [2, -7], []⟩ =
      .running [] ⟨0 + 1, Int.tmod (-7) 2 :: [], []⟩ :=
  ⟨(idiv_irem_semantics sampleClass (sampleMethod [108]) noCallee [] 0 (-7) 2 [] []
      (by decide) (by decide)).1 rfl,
   (idiv_irem_semantics sampleClass (sampleMethod [112]) noCallee [] 0 (-7) 2 [] []
      (by decide) (by decide)).2.1 rfl⟩

/-! ### Per-opcode stack-effect machinery -/

set_option maxHeartbeats 4000000 in
/-- Any step that keeps running preserves the stack-capacity bound: every
push in the source writes `stack[stack_index]`, in bounds only below
`max_stack`, and every other effect only lowers the depth. -/
theorem step_running_le (cls : ClassFile) (m : Method)
    (ex : Method → List Int → Heap → ExecResult)
    (heap : Heap) (fr : Frame) (h2 : Heap) (fr2 : Frame)
    (hrun : step cls m ex heap fr = .running h2 fr2)
    (hmax : fr.stack.length ≤ m.max_stack) :
    fr2.stack.length ≤ m.max_stack := by
  simp only [step] at hrun
  have h256 := u8At_lt m.code fr.pc
  generalize hgen : u8At m.code fr.pc = op at hrun h256
  interval_cases op <;>
    (simp at hrun
     repeat' split at hrun
     all_goals (try simp at hrun)
     all_goals (obtain ⟨rfl, rfl⟩ := hrun)
     all_goals (try (rcases push_eq_some (by assumption) with ⟨rfl, hcap⟩))
     all_goals simp_all
     all_goals omega)

set_option maxHeartbeats 4000000 in
/-- Only the three return opcodes can produce a Returned outcome: any other
opcode byte leaves the step running, fatal, or out of fuel. -/
theorem step_not_returned (cls : ClassFile) (m : Method)
    (ex : Method → List Int → Heap → ExecResult) (heap : Heap) (fr : Frame)
    (hne1 : u8At m.code fr.pc ≠ i_return) (hne2 : u8At m.code fr.pc ≠ i_ireturn)
    (hne3 : u8At m.code fr.pc ≠ i_areturn) :
    (∀ h2, step cls m ex heap fr ≠ .retVoid h2) ∧
    (∀ h2 v, step cls m ex heap fr ≠ .retVal h2 v) := by
  have key : ∀ res, step cls m ex heap fr = res →
      (∀ h2, res ≠ .retVoid h2) ∧ (∀ h2 v, res ≠ .retVal h2 v) := by
    intro res hres
    simp only [step] at hres
    have h256 := u8At_lt m.code fr.pc
    generalize hgen : u8At m.code fr.pc = op at hres h256 hne1 hne2 hne3
    interval_cases op <;>
      (first
        | exact absurd rfl hne1
        | exact absurd rfl hne2
        | exact absurd rfl hne3
        | (simp at hres
           (repeat' split at hres) <;> (subst hres; constructor <;> intros <;> simp)))
  exact ⟨fun h2 => (key _ rfl).1 h2, fun h2 v => (key _ rfl).2 h2 v⟩

/-- The §4.3 stack-effect table: (opcode, pops, pushes) for every supported
opcode except `invokestatic` (whose effect depends on the callee and is stated
separately) and the three returns (which end the frame). -/
def stackDeltaTable : List (Nat × Nat × Nat) :=
  [(i_nop, 0, 0),
   (i_iconst_m1, 0, 1), (3, 0, 1), (4, 0, 1), (5, 0, 1), (6, 0, 1), (7, 0, 1),
   (i_iconst_5, 0, 1),
   (i_bipush, 0, 1), (i_sipush, 0, 1), (i_ldc, 0, 1),
   (i_iload, 0, 1), (i_aload, 0, 1),
   (i_iload_0, 0, 1), (27, 0, 1), (28, 0, 1), (i_iload_3, 0, 1),
   (i_aload_0, 0, 1), (43, 0, 1), (44, 0, 1), (i_aload_3, 0, 1),
   (i_istore, 1, 0), (i_astore, 1, 0),
   (i_istore_0, 1, 0), (60, 1, 0), (61, 1, 0), (i_istore_3, 1, 0),
   (i_astore_0, 1, 0), (76, 1, 0), (77, 1, 0), (i_astore_3, 1, 0),
   (i_iinc, 0, 0),
   (i_iadd, 2, 1), (i_isub, 2, 1), (i_imul, 2, 1), (i_idiv, 2, 1), (i_irem, 2, 1),
   (i_ineg, 1, 1),
   (i_ishl, 2, 1), (i_ishr, 2, 1), (i_iushr, 2, 1),
   (i_iand, 2, 1), (i_ior, 2, 1), (i_ixor, 2, 1),
   (i_dup, 1, 2),
   (i_goto, 0, 0),
   (i_ifeq, 1, 0), (i_ifne, 1, 0), (i_iflt, 1, 0), (i_ifge, 1, 0), (i_ifgt, 1, 0),
   (i_ifle, 1, 0),
   (i_if_icmpeq, 2, 0), (i_if_icmpne, 2, 0), (i_if_icmplt, 2, 0), (i_if_icmpge, 2, 0),
   (i_if_icmpgt, 2, 0), (i_if_icmple, 2, 0),
   (i_getstatic, 0, 0), (i_invokevirtual, 1, 0),
   (i_newarray, 1, 1), (i_arraylength, 1, 1), (i_iaload, 2, 1), (i_iastore, 3, 0)]

set_option maxHeartbeats 4000000 in
/-- Every tabulated opcode that keeps running pops and pushes exactly per
the table. -/
theorem step_delta (cls : ClassFile) (m : Method)
    (ex : Method → List Int → Heap → ExecResult)
    (heap : Heap) (fr : Frame) (h2 : Heap) (fr2 : Frame) (op p q : Nat)
    (hmem : (op, p, q) ∈ stackDeltaTable) (hop : u8At m.code fr.pc = op)
    (hrun : step cls m ex heap fr = .running h2 fr2) :
    p ≤ fr.stack.length ∧ fr2.stack.length + p = fr.stack.length + q := by
  fin_cases hmem <;>
    (simp [step, hop] at hrun
     repeat' split at hrun
     all_goals (try simp at hrun)
     all_goals (obtain ⟨rfl, rfl⟩ := hrun)
     all_goals (try (rcases push_eq_some (by assumption) with ⟨rfl, hcap⟩))
     all_goals simp_all)

/-- A running `invokestatic` pops the callee's parameter count and pushes
back at most the one returned value. -/
theorem step_invokestatic_delta (cls : ClassFile) (m : Method)
    (ex : Method → List Int → Heap → ExecResult)
    (heap : Heap) (fr : Frame) (h2 : Heap) (fr2 : Frame) (mm : Method)
    (hop : u8At m.code fr.pc = i_invokestatic)
    (hfind : cls.find_method_from_index (s16At m.code fr.pc) = some mm)
    (hrun : step cls m ex heap fr = .running h2 fr2) :
    mm.nparams ≤ fr.stack.length ∧
    (fr2.stack.length + mm.nparams = fr.stack.length ∨
     fr2.stack.length + mm.nparams = fr.stack.length + 1) := by
  simp [step, hop, hfind] at hrun
  repeat' split at hrun
  all_goals (try simp at hrun)
  all_goals (obtain ⟨rfl, rfl⟩ := hrun)
  all_goals (try (rcases push_eq_some (by assumption) with ⟨rfl, hcap⟩))
  all_goals simp_all
  all_goals omega

/-- C6: `ishr(-1, 1) == -1` (arithmetic, sign-preserving) and
`iushr(-1, 1) == 0x7FFFFFFF`; in general `iushr` pops the count then a and
shifts the unsigned (zero-fill) interpretation of a: the pushed value's
32-bit pattern is exactly `toUnsigned32 a >>> b`. -/
theorem shr_ushr_semantics
    (cls : ClassFile) (m : Method) (ex : Method → List Int → Heap → ExecResult)
    (heap : Heap) (pc : Nat) (a b : Int) (rest locals : List Int)
    (hb1 : 0 ≤ b) (hb2 : b < 32) :
    (u8At m.code pc = i_ishr →
      step cls m ex heap ⟨pc, 1 :: -1 :: rest, locals⟩ =
        .running heap ⟨pc + 1, -1 :: rest, locals⟩) ∧
    (u8At m.code pc = i_iushr →
      step cls m ex heap ⟨pc, 1 :: -1 :: rest, locals⟩ =
        .running heap ⟨pc + 1, 2147483647 :: rest, locals⟩) ∧
    (u8At m.code pc = i_iushr →
      step cls m ex heap ⟨pc, b :: a :: rest, locals⟩ =
        .running heap ⟨pc + 1, toSigned32 (toUnsigned32 a >>> b.toNat) :: rest, locals⟩) ∧
    toUnsigned32 (toSigned32 (toUnsigned32 a >>> b.toNat)) = toUnsigned32 a >>> b.toNat := by
  have hlt : toUnsigned32 a >>> b.toNat < 4294967296 := by
    have h1 : toUnsigned32 a < 4294967296 := by unfold toUnsigned32; omega
    have h2 : toUnsigned32 a >>> b.toNat ≤ toUnsigned32 a := by
      rw [Nat.shiftRight_eq_div_pow]; exact Nat.div_le_self _ _
    omega
  refine ⟨fun hcode => ?_, fun hcode => ?_, fun hcode => ?_,
    toUnsigned32_toSigned32 hlt⟩
  · simp [step, hcode]
  · simp [step, hcode]
    decide
  · simp [step, hcode, hb1, hb2]

/-- C6 witness: the two boundary cases on a concrete one-instruction method. -/
theorem shr_ushr_semantics_witness :
    step sampleClass (sampleMethod [122]) noCallee [] ⟨0, [1, -1], []⟩ =
      .running [] ⟨0 + 1, -1 :: [], []⟩ ∧
    step sampleClass (sampleMethod [124]) noCallee [] ⟨0, [1, -1], []⟩ =
      .running [] ⟨0 + 1, 2147483647 :: [], []⟩ ∧
    step sampleClass (sampleMethod [124]) noCallee [] ⟨0, [1, -1], []⟩ =
      .running [] ⟨0 + 1, toSigned32 (toUnsigned32 (-1) >>> (1 : Int).toNat) :: [], []⟩ :=
  ⟨(shr_ushr_semantics sampleClass (sampleMethod [122]) noCallee [] 0 (-1) 1 [] []
      (by decide) (by decide)).1 rfl,
   (shr_ushr_semantics sampleClass (sampleMethod [124]) noCallee [] 0 (-1) 1 [] []
      (by decide) (by decide)).2.1 rfl,
   (shr_ushr_semantics sampleClass (sampleMethod [124]) noCallee [] 0 (-1) 1 [] []
      (by decide) (by decide)).2.2.1 rfl⟩

/-- The six single-operand conditional branches and their predicates against 0
(lines 226–285). -/
def condBranch : Nat → Option (Int → Bool) := fun op =>
  if op = i_ifeq then some (fun a => decide (a = 0))
  else if op = i_ifne then some (fun a => decide (a ≠ 0))
  else if op = i_iflt then some (fun a => decide (a < 0))
  else if op = i_ifge then some (fun a => decide (0 ≤ a))
  else if op = i_ifgt then some (fun a => decide (0 < a))
  else if op = i_ifle then some (fun a => decide (a ≤ 0))
  else none

/-- C4: every branch target is `pc + s16(1)` where `s16` is the sign-extended
big-endian operand `(code[pc+1] << 8) | code[pc+2]`; the program-counter
addition behaves as signed arithmetic (wrapped through `size_t`), so whenever
the signed target `pc + off` is a valid non-negative address it is reached
exactly — negative offsets give backward jumps; and each of
ifeq/ifne/iflt/ifge/ifgt/ifle pops one value `a` and jumps by the offset
exactly when its predicate against 0 holds, otherwise advances `pc` by 3. -/
theorem branch_semantics
    (cls : ClassFile) (m : Method) (ex : Method → List Int → Heap → ExecResult)
    (heap : Heap) (pc : Nat) (a : Int) (rest locals : List Int)
    (op : Nat) (pred : Int → Bool)
    (hop : condBranch op = some pred) (hcode : u8At m.code pc = op) :
    s16At m.code pc =
      toSigned16 ((u8At m.code (pc + 1)) <<< 8 ||| u8At m.code (pc + 2)) ∧
    (∀ off : Int, 0 ≤ (pc : Int) + off → (pc : Int) + off < 18446744073709551616 →
      (jumpPc pc off : Int) = (pc : Int) + off) ∧
    step cls m ex heap ⟨pc, a :: rest, locals⟩ =
      .running heap
        ⟨if pred a then jumpPc pc (s16At m.code pc) else pc + 3, rest, locals⟩ := by
  refine ⟨s16At_eq_spec m.code pc, fun off h1 h2 => by unfold jumpPc; omega, ?_⟩
  unfold condBranch at hop
  split_ifs at hop with h1 h2 h3 h4 h5 h6
  · injection hop with hpred; subst hpred h1; simp [step, hcode]
  · injection hop with hpred; subst hpred h2; simp [step, hcode]
  · injection hop with hpred; subst hpred h3; simp [step, hcode]
  · injection hop with hpred; subst hpred h4; simp [step, hcode]
  · injection hop with hpred; subst hpred h5; simp [step, hcode]
  · injection hop with hpred; subst hpred h6; simp [step, hcode]

/-- C4 witness: a concrete `ifeq` with popped value 0 takes the decoded jump,
and with popped value 5 falls through to pc + 3. -/
theorem branch_semantics_witness :
    step sampleClass (sampleMethod [153, 0, 7]) noCallee [] ⟨0, [0], []⟩ =
      .running [] ⟨jumpPc 0 (s16At [153, 0, 7] 0), [], []⟩ ∧
    step sampleClass (sampleMethod [153, 0, 7]) noCallee [] ⟨0, [5], []⟩ =
      .running [] ⟨0 + 3, [], []⟩ := by
  have h1 := (branch_semantics sampleClass (sampleMethod [153, 0, 7]) noCallee []
    0 0 [] [] i_ifeq (fun a => decide (a = 0)) rfl rfl).2.2
  have h2 := (branch_semantics sampleClass (sampleMethod [153, 0, 7]) noCallee []
    0 5 [] [] i_ifeq (fun a => decide (a = 0)) rfl rfl).2.2
  norm_num at h1 h2
  exact ⟨h1, h2⟩

/-- C7: `return` makes the step yield the void Returned outcome,
`ireturn`/`areturn` yield the value at the top of the operand stack, every
other opcode never produces a Returned outcome, and at the loop level the
return opcodes terminate `execute` with exactly those results. -/
theorem return_state_machine
    (cls : ClassFile) (m : Method) (ex : Method → List Int → Heap → ExecResult)
    (heap : Heap) (fr : Frame) (v : Int) (rest : List Int) :
    (u8At m.code fr.pc = i_return → step cls m ex heap fr = .retVoid heap) ∧
    (u8At m.code fr.pc = i_ireturn → fr.stack = v :: rest →
      step cls m ex heap fr = .retVal heap v) ∧
    (u8At m.code fr.pc = i_areturn → fr.stack = v :: rest →
      step cls m ex heap fr = .retVal heap v) ∧
    (u8At m.code fr.pc ≠ i_return → u8At m.code fr.pc ≠ i_ireturn →
      u8At m.code fr.pc ≠ i_areturn →
      (∀ h2, step cls m ex heap fr ≠ .retVoid h2) ∧
      (∀ h2 w, step cls m ex heap fr ≠ .retVal h2 w)) ∧
    (fr.pc < m.code.length → u8At m.code fr.pc = i_return → ∀ fuel,
      loop (fuel + 1) cls m heap fr = .ok heap none) ∧
    (fr.pc < m.code.length → u8At m.code fr.pc = i_ireturn → fr.stack = v :: rest →
      ∀ fuel, loop (fuel + 1) cls m heap fr = .ok heap (some v)) := by
  refine ⟨fun hcode => by simp [step, hcode],
    fun hcode hstack => by simp [step, hcode, hstack],
    fun hcode hstack => by simp [step, hcode, hstack],
    fun h1 h2 h3 => step_not_returned cls m ex heap fr h1 h2 h3,
    fun hpc hcode fuel => ?_, fun hpc hcode hstack fuel => ?_⟩
  · rw [loop, if_pos hpc,
      show step cls m (fun mm l h => loop fuel cls mm h ⟨0, [], l⟩) heap fr = .retVoid heap
        from by simp [step, hcode]]
  · rw [loop, if_pos hpc,
      show step cls m (fun mm l h => loop fuel cls mm h ⟨0, [], l⟩) heap fr = .retVal heap v
        from by simp [step, hcode, hstack]]

/-- C7 witness: `return` and `ireturn` on concrete one-instruction methods,
and an `iadd` step that is not a Returned outcome. -/
theorem return_state_machine_witness :
    step sampleClass (sampleMethod [177]) noCallee [] ⟨0, [4], []⟩ = .retVoid [] ∧
    step sampleClass (sampleMethod [172]) noCallee [] ⟨0, [4], []⟩ = .retVal [] 4 ∧
    step sampleClass (sampleMethod [176]) noCallee [] ⟨0, [4], []⟩ = .retVal [] 4 ∧
    (∀ h2, step sampleClass (sampleMethod [96]) noCallee [] ⟨0, [1, 2], []⟩ ≠ .retVoid h2) ∧
    loop 5 sampleClass (sampleMethod [172]) [] ⟨0, [4], []⟩ = .ok [] (some 4) := by
  refine ⟨(return_state_machine sampleClass (sampleMethod [177]) noCallee [] ⟨0, [4], []⟩
      4 [] ).1 rfl,
    (return_state_machine sampleClass (sampleMethod [172]) noCallee [] ⟨0, [4], []⟩
      4 []).2.1 rfl rfl,
    (return_state_machine sampleClass (sampleMethod [176]) noCallee [] ⟨0, [4], []⟩
      4 []).2.2.1 rfl rfl,
    fun h2 => ((return_state_machine sampleClass (sampleMethod [96]) noCallee []
      ⟨0, [1, 2], []⟩ 4 []).2.2.2.1 (by decide) (by decide) (by decide)).1 h2,
    (return_state_machine sampleClass (sampleMethod [172]) noCallee [] ⟨0, [4], []⟩
      4 []).2.2.2.2.2 (by decide) rfl rfl 4⟩

/-- C8: a step that completes (keeps running) preserves the stack-depth
bounds 0 ≤ depth ≤ max_stack, and its depth delta matches the §4.3 table:
for every tabulated opcode the step pops `p` and pushes `q` exactly, and
`invokestatic` pops the callee's parameter count and pushes back at most one
returned value. -/
theorem stack_depth_effects
    (cls : ClassFile) (m : Method) (ex : Method → List Int → Heap → ExecResult)
    (heap : Heap) (fr : Frame) (h2 : Heap) (fr2 : Frame)
    (hrun : step cls m ex heap fr = .running h2 fr2) :
    (fr.stack.length ≤ m.max_stack →
      0 ≤ fr2.stack.length ∧ fr2.stack.length ≤ m.max_stack) ∧
    (∀ op p q, (op, p, q) ∈ stackDeltaTable → u8At m.code fr.pc = op →
      p ≤ fr.stack.length ∧ fr2.stack.length + p = fr.stack.length + q) ∧
    (∀ mm, u8At m.code fr.pc = i_invokestatic →
      cls.find_method_from_index (s16At m.code fr.pc) = some mm →
      mm.nparams ≤ fr.stack.length ∧
      (fr2.stack.length + mm.nparams = fr.stack.length ∨
       fr2.stack.length + mm.nparams = fr.stack.length + 1)) :=
  ⟨fun hmax => ⟨Nat.zero_le _, step_running_le cls m ex heap fr h2 fr2 hrun hmax⟩,
   fun op p q hmem hop => step_delta cls m ex heap fr h2 fr2 op p q hmem hop hrun,
   fun mm hop hfind => step_invokestatic_delta cls m ex heap fr h2 fr2 mm hop hfind hrun⟩

/-- C8 witness: an `iadd` on stack [2, 3] with max_stack 8 pops two, pushes
one, and stays within bounds. -/
theorem stack_depth_effects_witness :
    (0 ≤ (Frame.mk 1 [5] []).stack.length ∧
      (Frame.mk 1 [5] []).stack.length ≤ (sampleMethod [96]).max_stack) ∧
    (2 ≤ (Frame.mk 0 [2, 3] []).stack.length ∧
      (Frame.mk 1 [5] []).stack.length + 2 = (Frame.mk 0 [2, 3] []).stack.length + 1) := by
  have h := stack_depth_effects sampleClass (sampleMethod [96]) noCallee []
    ⟨0, [2, 3], []⟩ [] ⟨1, [5], []⟩ (by decide)
  exact ⟨h.1 (by decide), h.2.1 96 2 1 (by decide) rfl⟩

/-- C1: `invokestatic` with a resolvable callee of P parameters pops P values
off the caller's stack into a fully zeroed callee-locals array of length
`callee.max_locals`, with the i-th popped value (counting the top of the
stack as the 0th pop) landing in slot P−1−i — so the first popped value
lands in slot P−1 and the last in slot 0 — all remaining slots zero; after
the callee returns, its value (if any) is pushed onto the caller's stack and
the caller's pc advances by 3. -/
theorem invokestatic_protocol
    (cls : ClassFile) (m mm : Method)
    (ex : Method → List Int → Heap → ExecResult)
    (heap h2 : Heap) (pc : Nat) (stack locals : List Int) (r : Option Int)
    (hcode : u8At m.code pc = i_invokestatic)
    (hfind : cls.find_method_from_index (s16At m.code pc) = some mm)
    (hP : mm.nparams ≤ stack.length) (hL : mm.nparams ≤ mm.max_locals)
    (hex : ex mm (calleeLocals mm.nparams mm.max_locals stack) heap = .ok h2 r)
    (hcap : ∀ v, r = some v → (stack.drop mm.nparams).length < m.max_stack) :
    step cls m ex heap ⟨pc, stack, locals⟩ =
      .running h2 ⟨pc + 3,
        (match r with
         | some v => v :: stack.drop mm.nparams
         | none => stack.drop mm.nparams), locals⟩ ∧
    (calleeLocals mm.nparams mm.max_locals stack).length = mm.max_locals ∧
    (∀ i, i < mm.nparams →
      (calleeLocals mm.nparams mm.max_locals stack).getD (mm.nparams - 1 - i) 0 =
        stack.getD i 0) ∧
    (∀ j, mm.nparams ≤ j →
      (calleeLocals mm.nparams mm.max_locals stack).getD j 0 = 0) := by
  refine ⟨?_, calleeLocals_length _ _ _, fun i hi => ?_, fun j hj => ?_⟩
  · rcases r with _ | v
    · simp [step, hcode, hfind, hP, hL, hex]
    · simp [step, hcode, hfind, hP, hL, hex, push_of_lt v (hcap v rfl)]
  · rw [calleeLocals_getD _ _ _ hL, if_pos (by omega)]
    congr 1
    omega
  · rw [calleeLocals_getD _ _ _ hL]
    exact if_neg (by omega)

/-- A concrete callee taking two parameters (for the C1 witness). -/
def sampleCallee : Method := ⟨[], 1, 3, 2⟩

/-- A class view resolving pool index 1 to `sampleCallee`. -/
def sampleCallClass : ClassFile := ⟨[], fun i => if i = 1 then some sampleCallee else none⟩

/-- A callee executor returning 99 without touching the heap. -/
def sampleExec : Method → List Int → Heap → ExecResult := fun _ _ h => .ok h (some 99)

/-- C1 witness: calling the 2-parameter callee on caller stack [10, 20, 30]
pops 10 and 20, the first popped value 10 lands in slot 1 = P−1 and the
second popped value 20 in slot 0, slot 2 stays zero, and the returned 99 is
pushed over the remaining [30] with pc advanced to 3. -/
theorem invokestatic_protocol_witness :
    step sampleCallClass (Method.mk [184, 0, 1] 8 0 0) sampleExec [] ⟨0, [10, 20, 30], []⟩ =
      .running [] ⟨3, [99, 30], []⟩ ∧
    (calleeLocals 2 3 [10, 20, 30]).getD 1 0 = 10 ∧
    (calleeLocals 2 3 [10, 20, 30]).getD 0 0 = 20 ∧
    (calleeLocals 2 3 [10, 20, 30]).getD 2 0 = 0 := by
  have h := invokestatic_protocol sampleCallClass (Method.mk [184, 0, 1] 8 0 0) sampleCallee
    sampleExec [] [] 0 [10, 20, 30] [] (some 99) rfl rfl (by decide) (by decide)
    rfl (fun v hv => by decide)
  refine ⟨h.1, ?_, ?_, h.2.2.2 2 (by decide)⟩
  · have := h.2.2.1 0 (by decide)
    simpa using this
  · have := h.2.2.1 1 (by decide)
    simpa using this

/-- C3: every `newarray` execution that completes — its length n is
nonnegative and below 2^31 − 1, where the int32_t size computation `N + 1`
would overflow (undefined behavior, modelled as fatal) — allocates the zeroed
array with its length stored at index 0, appends it to the heap, and pushes
the fresh reference (on which `arraylength` yields n); previously allocated
arrays keep their contents under later allocations; and an `iastore` of v at
a valid index followed by an `iaload` at the same index yields v back. -/
theorem newarray_roundtrip
    (cls : ClassFile) (m : Method) (ex : Method → List Int → Heap → ExecResult)
    (heap : Heap) (pc : Nat) (n : Int) (rest locals : List Int) :
    (u8At m.code pc = i_newarray → 0 ≤ n → n < 2147483647 →
      step cls m ex heap ⟨pc, n :: rest, locals⟩ =
        .running (heap ++ [n :: List.replicate n.toNat 0])
          ⟨pc + 2, (heap.length : Int) :: rest, locals⟩) ∧
    (u8At m.code pc = i_newarray →
      step cls m ex heap ⟨pc, (2147483647 : Int) :: rest, locals⟩ = .fatal) ∧
    heap_get (heap ++ [n :: List.replicate n.toNat 0]) (heap.length : Int) =
      some (n :: List.replicate n.toNat 0) ∧
    (∀ (h3 : Heap) (r : Int) (arr2 : List Int), heap_get heap r = some arr2 →
      heap_get (heap ++ h3) r = some arr2) ∧
    (∀ (m2 : Method) (pc2 : Nat) (r L : Int) (data st lo : List Int) (h3 : Heap),
      u8At m2.code pc2 = i_arraylength → heap_get h3 r = some (L :: data) →
      step cls m2 ex h3 ⟨pc2, r :: st, lo⟩ = .running h3 ⟨pc2 + 1, L :: st, lo⟩) ∧
    (∀ (m2 : Method) (pc2 : Nat) (r v j : Int) (st lo : List Int) (h3 : Heap)
        (arr : List Int),
      u8At m2.code pc2 = i_iastore → heap_get h3 r = some arr →
      0 ≤ j → (j + 1).toNat < arr.length →
      step cls m2 ex h3 ⟨pc2, v :: j :: r :: st, lo⟩ =
        .running (h3.set r.toNat (arr.set (j + 1).toNat v)) ⟨pc2 + 1, st, lo⟩) ∧
    (∀ (m2 : Method) (pc2 : Nat) (r v j : Int) (st lo : List Int) (h3 : Heap)
        (arr : List Int),
      u8At m2.code pc2 = i_iaload → heap_get h3 r = some arr →
      0 ≤ j → (j + 1).toNat < arr.length →
      step cls m2 ex (h3.set r.toNat (arr.set (j + 1).toNat v))
          ⟨pc2, j :: r :: st, lo⟩ =
        .running (h3.set r.toNat (arr.set (j + 1).toNat v))
          ⟨pc2 + 1, v :: st, lo⟩) := by
  refine ⟨fun hcode hn hlt => ?_, fun hcode => ?_, ?_, fun h3 r arr2 hget => ?_,
    fun m2 pc2 r L data st lo h3 hcode hget => ?_,
    fun m2 pc2 r v j st lo h3 arr hcode hget hj hbound => ?_,
    fun m2 pc2 r v j st lo h3 arr hcode hget hj hbound => ?_⟩
  · have hrepl : (List.replicate (n.toNat + 1) (0 : Int)).set 0 n =
        n :: List.replicate n.toNat 0 := by
      rw [List.replicate_succ]
      rfl
    simp [step, hcode, hn, hlt, heap_add, hrepl]
  · simp [step, hcode]
  · unfold heap_get
    rw [if_pos (by constructor <;> simp)]
    simp [List.getD_eq_getElem?_getD]
  · unfold heap_get at hget ⊢
    split at hget
    · rename_i hc
      rw [if_pos ⟨hc.1, by simp; omega⟩]
      simp only [List.getD_eq_getElem?_getD] at hget ⊢
      rw [List.getElem?_append_left hc.2]
      exact hget
    · exact absurd hget (by simp)
  · simp [step, hcode, hget]
  · have hj1 : 0 ≤ j + 1 := by omega
    simp [step, hcode, hget, hj1, hbound]
  · have hc : 0 ≤ r ∧ r.toNat < h3.length := by
      unfold heap_get at hget
      split at hget
      · assumption
      · exact absurd hget (by simp)
    have hget2 : heap_get (h3.set r.toNat (arr.set (j + 1).toNat v)) r =
        some (arr.set (j + 1).toNat v) := by
      unfold heap_get
      rw [if_pos (by simpa using hc)]
      rw [List.getD_eq_getElem?_getD, List.getElem?_set_self hc.2]
      rfl
    have hj1 : 0 ≤ j + 1 := by omega
    have hread : (arr.set (j + 1).toNat v).getD (j + 1).toNat 0 = v := by
      rw [List.getD_eq_getElem?_getD, List.getElem?_set_self hbound]
      rfl
    simp [step, hcode, hget2, hj1, hbound, hread]

/-- C3 witness: allocate int[2] on an empty heap, read its length, store 7 at
index 0, and load it back; a `newarray` of the overflowing length 2^31 − 1
has no defined result. -/
theorem newarray_roundtrip_witness :
    step sampleClass (sampleMethod [188, 10]) noCallee [] ⟨0, [2], []⟩ =
      .running ([] ++ [(2 : Int) :: List.replicate (2 : Int).toNat 0])
        ⟨0 + 2, ((List.length ([] : Heap) : Int)) :: [], []⟩ ∧
    step sampleClass (sampleMethod [188, 10]) noCallee [] ⟨0, [2147483647], []⟩ =
      .fatal ∧
    heap_get [[2, 0, 0]] 0 = some [2, 0, 0] ∧
    step sampleClass (sampleMethod [190]) noCallee [[2, 0, 0]] ⟨0, [0], []⟩ =
      .running [[2, 0, 0]] ⟨0 + 1, 2 :: [], []⟩ ∧
    step sampleClass (sampleMethod [79]) noCallee [[2, 0, 0]] ⟨0, [7, 0, 0], []⟩ =
      .running [[2, 7, 0]] ⟨0 + 1, [], []⟩ ∧
    step sampleClass (sampleMethod [46]) noCallee [[2, 7, 0]] ⟨0, [0, 0], []⟩ =
      .running [[2, 7, 0]] ⟨0 + 1, 7 :: [], []⟩ := by
  have hbase := newarray_roundtrip sampleClass (sampleMethod [188, 10]) noCallee [] 0 2 [] []
  refine ⟨hbase.1 rfl (by decide) (by decide), hbase.2.1 rfl, by decide, ?_, ?_, ?_⟩
  · exact hbase.2.2.2.2.1 (sampleMethod [190]) 0 0 2 [0, 0] [] [] [[2, 0, 0]] rfl rfl
  · have h := hbase.2.2.2.2.2.1 (sampleMethod [79]) 0 0 7 0 [] [] [[2, 0, 0]] [2, 0, 0]
      rfl rfl (by decide) (by decide)
    simpa using h
  · have h := hbase.2.2.2.2.2.2 (sampleMethod [46]) 0 0 7 0 [] [] [[2, 0, 0]] [2, 0, 0]
      rfl rfl (by decide) (by decide)
    simpa using h

end TeenyJVM
